import Mathlib

/-!
# Verification of `scripts/parse_live.py` (CitationHunt)

A shallow embedding, in Lean 4, of the batch-parsing pipeline of
`scripts/parse_live.py`: the per-worker exception circuit breaker
(`with_max_exceptions`), the batch scheduler in `parse_live`, the pool
shutdown sequence, the anchor encoder (`section_name_to_anchor`), the
fetch client filter (`query_pageids`) and the per-batch worker (`work`),
together with theorems about them.

Python strings are modelled as `List Char` (or `String`) and the machine
behaviour of `urllib.quote` (percent-encoding of UTF-8 bytes) is embedded
explicitly over byte values as natural numbers `< 256`.
-/

namespace ParseLive

/-! ## Circuit breaker: `with_max_exceptions` (parse_live.py lines 49, 107-126)

A worker's per-process state holds `exception_count`, set to `0` by
`initializer`.  `with_max_exceptions fn` runs `fn`; on an exception it
increments the counter and re-raises iff the counter now exceeds
`MAX_EXCEPTIONS_PER_SUBPROCESS`.  We embed one wrapped call as a step
function from the counter and a flag saying whether `fn` raises, and a
worker's lifetime as a fold of that step over the sequence of batches
(each batch abstracted to the flag "does processing it raise?"). -/

def MAX_EXCEPTIONS_PER_SUBPROCESS : Nat := 5

/-- `initializer` (line 114) sets `self.exception_count = 0`. -/
def initializer_exception_count : Nat := 0

/-- Outcome of one call through the `with_max_exceptions` wrapper. -/
inductive Outcome where
  | ok        -- `fn` returned normally
  | caught    -- `fn` raised; the wrapper swallowed the exception
  | reraised  -- `fn` raised; the wrapper re-raised (worker dies)
deriving DecidableEq, Repr

/-- One call of `with_max_exceptions fn`, given the current
`exception_count` and whether `fn` raises: returns the outcome and the new
counter.  Mirrors lines 118-125 of parse_live.py: `try: return fn(...)
except: count += 1; if count > MAX: raise`. -/
def with_max_exceptions_step (exception_count : Nat) (raises : Bool) :
    Outcome × Nat :=
  if raises then
    let c := exception_count + 1
    if MAX_EXCEPTIONS_PER_SUBPROCESS < c then (Outcome.reraised, c)
    else (Outcome.caught, c)
  else (Outcome.ok, exception_count)

/-- A worker's lifetime: batches are handed to it one after another; each
batch either raises (`true`) or not (`false`).  Returns
`(batches attempted, final exception_count, worker died)`.  Once a call
re-raises, the worker is dead and attempts no further batch. -/
def runWorker : Nat → List Bool → Nat × Nat × Bool
  | c, [] => (0, c, false)
  | c, b :: bs =>
    match with_max_exceptions_step c b with
    | (Outcome.reraised, c') => (1, c', true)
    | (_, c') =>
      let r := runWorker c' bs
      (r.1 + 1, r.2)

theorem with_max_exceptions_step_false (c : Nat) :
    with_max_exceptions_step c false = (Outcome.ok, c) := by
  simp [with_max_exceptions_step]

theorem with_max_exceptions_step_true (c : Nat) :
    with_max_exceptions_step c true =
      (if MAX_EXCEPTIONS_PER_SUBPROCESS < c + 1 then Outcome.reraised
       else Outcome.caught, c + 1) := by
  by_cases h : MAX_EXCEPTIONS_PER_SUBPROCESS < c + 1 <;>
    simp [with_max_exceptions_step, h]

theorem runWorker_nil (c : Nat) : runWorker c [] = (0, c, false) := rfl

theorem runWorker_cons_false (c : Nat) (bs : List Bool) :
    runWorker c (false :: bs) =
      ((runWorker c bs).1 + 1, (runWorker c bs).2) := by
  simp [runWorker, with_max_exceptions_step_false]

theorem runWorker_cons_true_caught (c : Nat) (bs : List Bool)
    (h : c + 1 ≤ MAX_EXCEPTIONS_PER_SUBPROCESS) :
    runWorker c (true :: bs) =
      ((runWorker (c + 1) bs).1 + 1, (runWorker (c + 1) bs).2) := by
  simp [runWorker, with_max_exceptions_step_true, Nat.not_lt.mpr h]

theorem runWorker_cons_true_reraised (c : Nat) (bs : List Bool)
    (h : MAX_EXCEPTIONS_PER_SUBPROCESS < c + 1) :
    runWorker c (true :: bs) = (1, c + 1, true) := by
  simp [runWorker, with_max_exceptions_step_true, h]

/-- Main characterisation of a worker's lifetime, by induction on the batch
sequence: starting from counter `c ≤ 5`, if the failures among the batches
keep the counter at `≤ 5` the worker attempts every batch and survives;
otherwise it dies on the batch carrying its `(6-c)`-th failure, with exactly
`6 - c` failures among the batches attempted, the last attempted batch being
a failing one. -/
theorem runWorker_spec (bs : List Bool) : ∀ c : Nat,
    c ≤ MAX_EXCEPTIONS_PER_SUBPROCESS →
    (bs.count true + c ≤ MAX_EXCEPTIONS_PER_SUBPROCESS →
      runWorker c bs = (bs.length, c + bs.count true, false)) ∧
    (MAX_EXCEPTIONS_PER_SUBPROCESS < bs.count true + c →
      ∃ k, 0 < k ∧ k ≤ bs.length ∧
        runWorker c bs = (k, MAX_EXCEPTIONS_PER_SUBPROCESS + 1, true) ∧
        (bs.take k).count true + c = MAX_EXCEPTIONS_PER_SUBPROCESS + 1 ∧
        bs[k - 1]? = some true) := by
  simp only [MAX_EXCEPTIONS_PER_SUBPROCESS]
  induction bs with
  | nil =>
    intro c hc
    refine ⟨fun _ => by simp [runWorker_nil], fun h => by simp at h; omega⟩
  | cons b bs ih =>
    intro c hc
    cases b with
    | false =>
      have h1 := ih c hc
      constructor
      · intro hle
        rw [runWorker_cons_false, (h1.1 (by simpa using hle))]
        simp [List.count_cons]
      · intro hgt
        obtain ⟨k, hk0, hkl, hrun, hcnt, hlast⟩ :=
          h1.2 (by simpa using hgt)
        obtain ⟨m, rfl⟩ : ∃ m, k = m + 1 := ⟨k - 1, by omega⟩
        refine ⟨m + 1 + 1, by omega, by simp; omega, ?_, ?_, ?_⟩
        · rw [runWorker_cons_false, hrun]
        · simpa [List.count_cons] using hcnt
        · simpa using hlast
    | true =>
      by_cases h6 : c + 1 ≤ 5
      · have h1 := ih (c + 1) h6
        constructor
        · intro hle
          rw [runWorker_cons_true_caught c bs (by
                simpa [MAX_EXCEPTIONS_PER_SUBPROCESS] using h6),
            (h1.1 (by simp at hle ⊢; omega))]
          simp [List.count_cons]; omega
        · intro hgt
          obtain ⟨k, hk0, hkl, hrun, hcnt, hlast⟩ :=
            h1.2 (by simp at hgt ⊢; omega)
          obtain ⟨m, rfl⟩ : ∃ m, k = m + 1 := ⟨k - 1, by omega⟩
          refine ⟨m + 1 + 1, by omega, by simp; omega, ?_, ?_, ?_⟩
          · rw [runWorker_cons_true_caught c bs (by
                simpa [MAX_EXCEPTIONS_PER_SUBPROCESS] using h6), hrun]
          · simp [List.count_cons] at hcnt ⊢; omega
          · simpa using hlast
      · have hc5 : c = 5 := by omega
        constructor
        · intro hle
          exfalso
          simp [List.count_cons] at hle
          omega
        · intro _
          refine ⟨1, by omega, by simp, ?_, ?_, ?_⟩
          · rw [runWorker_cons_true_reraised c bs (by
                simp [MAX_EXCEPTIONS_PER_SUBPROCESS]; omega)]
            simp [hc5]
          · simp [List.count_cons, hc5]
          · simp

/-- Claim C1: a batch-processing call that raises is caught, and the worker
proceeds to its next batch, for up to 5 failures on that worker; the 6th
failure on the same worker is re-raised out of the wrapper, terminating the
worker.  A worker whose batch sequence contains at most 5 failures attempts
every batch and survives; one whose sequence contains at least 6 failures
dies exactly on the batch carrying its 6th failure. -/
theorem with_max_exceptions_tolerates_five_failures (bs : List Bool) :
    (bs.count true ≤ 5 →
      runWorker initializer_exception_count bs =
        (bs.length, bs.count true, false)) ∧
    (6 ≤ bs.count true →
      ∃ k, 0 < k ∧ k ≤ bs.length ∧
        runWorker initializer_exception_count bs = (k, 6, true) ∧
        (bs.take k).count true = 6 ∧ bs[k - 1]? = some true) := by
  have h := runWorker_spec bs initializer_exception_count
    (by simp [initializer_exception_count, MAX_EXCEPTIONS_PER_SUBPROCESS])
  simp only [MAX_EXCEPTIONS_PER_SUBPROCESS, initializer_exception_count] at h
  constructor
  · intro hle
    simpa using h.1 (by omega)
  · intro hge
    obtain ⟨k, hk0, hkl, hrun, hcnt, hlast⟩ := h.2 (by omega)
    exact ⟨k, hk0, hkl, hrun, by omega, hlast⟩

theorem with_max_exceptions_tolerates_five_failures_witness :
    (runWorker initializer_exception_count
        [true, true, true, true, true, false, false] = (7, 5, false)) ∧
    (∃ k, 0 < k ∧ k ≤ 7 ∧
      runWorker initializer_exception_count
          [true, true, true, true, true, true, false] = (k, 6, true) ∧
      ([true, true, true, true, true, true, false].take k).count true = 6 ∧
      [true, true, true, true, true, true, false][k - 1]? = some true) := by
  constructor
  · simpa using
      (with_max_exceptions_tolerates_five_failures
        [true, true, true, true, true, false, false]).1 (by decide)
  · simpa using
      (with_max_exceptions_tolerates_five_failures
        [true, true, true, true, true, true, false]).2 (by decide)

/-- Claim C10: the per-worker failure counter starts at 0 (set by
`initializer`), a successful batch leaves it unchanged (never decreased or
reset), a failed batch increments it by exactly 1, and a worker dies during
a batch sequence iff that sequence carries enough failures to push the
counter past 5 — regardless of how failures and successes interleave, so
the failures need not be consecutive. -/
theorem exception_count_monotone_lifetime (c : Nat) (bs : List Bool)
    (hc : c ≤ MAX_EXCEPTIONS_PER_SUBPROCESS) :
    initializer_exception_count = 0 ∧
    (with_max_exceptions_step c false).2 = c ∧
    (with_max_exceptions_step c true).2 = c + 1 ∧
    ((runWorker c bs).2.2 = true ↔
      MAX_EXCEPTIONS_PER_SUBPROCESS < c + bs.count true) := by
  refine ⟨rfl, by rw [with_max_exceptions_step_false],
    by rw [with_max_exceptions_step_true], ?_⟩
  have h := runWorker_spec bs c hc
  constructor
  · intro hdied
    by_contra hcnt
    rw [h.1 (by omega)] at hdied
    simp at hdied
  · intro hcnt
    obtain ⟨k, _, _, hrun, _, _⟩ := h.2 (by omega)
    rw [hrun]

theorem exception_count_monotone_lifetime_witness :
    initializer_exception_count = 0 ∧
    (with_max_exceptions_step 2 false).2 = 2 ∧
    (with_max_exceptions_step 2 true).2 = 2 + 1 ∧
    ((runWorker 2 [true, false, true, false, true, true]).2.2 = true ↔
      MAX_EXCEPTIONS_PER_SUBPROCESS <
        2 + [true, false, true, false, true, true].count true) :=
  exception_count_monotone_lifetime 2 [true, false, true, false, true, true]
    (by decide)

/-! ## Pool shutdown (parse_live.py lines 171-178)

`parse_live` calls, in order: `pool.map_async(work, tasks)`, `pool.close()`,
`result.wait(timeout)`, then — only when `result.ready()` is false, i.e. the
deadline elapsed with batches outstanding — `pool.terminate()` (forcible
termination of the workers, no draining of in-flight batches), and finally
always `pool.join()`.  We embed the sequence of pool operations the body of
`parse_live` issues, parameterised by whether the result was ready when
`wait` returned. -/

inductive PoolOp where
  | map_async | close | wait | terminate | join
deriving DecidableEq, Repr

def parse_live_pool_ops (ready : Bool) : List PoolOp :=
  [PoolOp.map_async, PoolOp.close, PoolOp.wait] ++
    (if ready then [] else [PoolOp.terminate]) ++ [PoolOp.join]

/-- Claim C2: if the deadline elapses while batches are outstanding
(`ready = false`), the pool is forcibly terminated — `terminate` follows the
timed `wait` directly, with no further waiting operation between them — and
in every run, ready or not, `join` is the last pool operation issued, so the
pool is joined before the job is reported done. -/
theorem parse_live_shutdown_joins_after_cancellation :
    parse_live_pool_ops false =
      [PoolOp.map_async, PoolOp.close, PoolOp.wait, PoolOp.terminate,
        PoolOp.join] ∧
    parse_live_pool_ops true =
      [PoolOp.map_async, PoolOp.close, PoolOp.wait, PoolOp.join] ∧
    (∀ ready : Bool,
      (parse_live_pool_ops ready).getLast? = some PoolOp.join) := by
  decide

/-! ## Batch scheduler (parse_live.py lines 164-169)

`parse_live` turns the input pageid collection into a list and slices it:
`for i in range(0, len(pageids), 32): tasks.append(pageids_list[i:i+32])`,
which is exactly: first `take 32`, then recurse on `drop 32`. -/

def batch_size : Nat := 32

def make_batches {α : Type} : List α → List (List α)
  | [] => []
  | x :: xs =>
    (x :: xs).take batch_size :: make_batches ((x :: xs).drop batch_size)
termination_by l => l.length
decreasing_by
  simp only [batch_size, List.length_drop, List.length_cons]
  omega

theorem make_batches_nil {α : Type} : make_batches ([] : List α) = [] := by
  simp [make_batches]

theorem make_batches_cons {α : Type} (x : α) (xs : List α) :
    make_batches (x :: xs) =
      (x :: xs).take batch_size ::
        make_batches ((x :: xs).drop batch_size) := by
  rw [make_batches]

/-- Concatenating the batches back together gives exactly the input list:
no identifier is dropped, none is duplicated, and within-batch order
follows input order. -/
theorem make_batches_flatten {α : Type} (l : List α) :
    (make_batches l).flatten = l := by
  obtain ⟨n, hn⟩ : ∃ n, l.length ≤ n := ⟨l.length, le_rfl⟩
  induction n generalizing l with
  | zero =>
    have : l = [] := List.eq_nil_of_length_eq_zero (by omega)
    subst this
    simp [make_batches_nil]
  | succ n ih =>
    match l with
    | [] => simp [make_batches_nil]
    | x :: xs =>
      rw [make_batches_cons, List.flatten_cons,
        ih ((x :: xs).drop batch_size)
          (by simp [batch_size] at hn ⊢; omega)]
      exact List.take_append_drop _ _

/-- Every batch produced by the scheduler has at most `batch_size = 32`
elements. -/
theorem make_batches_size_le {α : Type} (l : List α) :
    ∀ b ∈ make_batches l, b.length ≤ batch_size := by
  obtain ⟨n, hn⟩ : ∃ n, l.length ≤ n := ⟨l.length, le_rfl⟩
  induction n generalizing l with
  | zero =>
    have : l = [] := List.eq_nil_of_length_eq_zero (by omega)
    subst this
    simp [make_batches_nil]
  | succ n ih =>
    match l with
    | [] => simp [make_batches_nil]
    | x :: xs =>
      rw [make_batches_cons]
      intro b hb
      rcases List.mem_cons.1 hb with rfl | hb
      · simp [List.length_take]
      · exact ih ((x :: xs).drop batch_size)
          (by simp [batch_size] at hn ⊢; omega) b hb

theorem eq_of_mem_pairwise_disjoint {α : Type} :
    ∀ {L : List (List α)}, L.Pairwise List.Disjoint →
      ∀ {b₁ b₂ : List α}, b₁ ∈ L → b₂ ∈ L →
        ∀ {x : α}, x ∈ b₁ → x ∈ b₂ → b₁ = b₂ := by
  intro L
  induction L with
  | nil => intro _ _ _ h₁; cases h₁
  | cons a L ih =>
    intro hp b₁ b₂ h₁ h₂ x hx₁ hx₂
    rw [List.pairwise_cons] at hp
    rcases List.mem_cons.1 h₁ with rfl | h1
    · rcases List.mem_cons.1 h₂ with rfl | h2
      · rfl
      · exact absurd hx₂ (hp.1 b₂ h2 hx₁)
    · rcases List.mem_cons.1 h₂ with rfl | h2
      · exact absurd hx₁ (hp.1 b₁ h1 hx₂)
      · exact ih hp.2 h1 h2 hx₁ hx₂

/-- Claim C3: the scheduler partitions the (duplicate-free) input into
batches of at most 32 identifiers; concatenating the batches gives back the
input exactly, so the union of the batches equals the input set with no
duplicates introduced, and every input identifier occurs in exactly one
batch. -/
theorem make_batches_partition {α : Type} (l : List α) (hnd : l.Nodup) :
    (make_batches l).flatten = l ∧
    (∀ b ∈ make_batches l, b.length ≤ batch_size) ∧
    (∀ x ∈ l, ∃! b, b ∈ make_batches l ∧ x ∈ b) := by
  refine ⟨make_batches_flatten l, make_batches_size_le l, ?_⟩
  intro x hx
  have hfl : (make_batches l).flatten = l := make_batches_flatten l
  have hflnd : (make_batches l).flatten.Nodup := by rw [hfl]; exact hnd
  have hdisj : (make_batches l).Pairwise List.Disjoint :=
    (List.nodup_flatten.1 hflnd).2
  have hxfl : x ∈ (make_batches l).flatten := by rw [hfl]; exact hx
  obtain ⟨b, hb, hxb⟩ := List.mem_flatten.1 hxfl
  exact ⟨b, ⟨hb, hxb⟩, fun b' ⟨hb', hxb'⟩ =>
    eq_of_mem_pairwise_disjoint hdisj hb' hb hxb' hxb⟩

theorem make_batches_partition_witness :
    (make_batches (List.range 70)).flatten = List.range 70 ∧
    (∀ b ∈ make_batches (List.range 70), b.length ≤ batch_size) ∧
    (∀ x ∈ List.range 70, ∃! b, b ∈ make_batches (List.range 70) ∧ x ∈ b) :=
  make_batches_partition (List.range 70) (List.nodup_range 70)

/-! ## Anchor encoder: `section_name_to_anchor` (parse_live.py lines 53-62)

The Python code is
```
section = section.replace(' ', '_')
section = urllib.quote(e(section), safe = e(''))
section = section.replace('%3A', ':')
section = section.replace('%', '.')
```
`e` encodes the unicode string as UTF-8 bytes and Python 2's
`urllib.quote` with `safe=''` percent-encodes (uppercase hex) every byte
outside its `always_safe` set: ASCII letters, digits, `_`, `.`, `-`.
We embed strings as `List Char`, bytes as `Nat` values `< 256`, and the
UTF-8 encoder explicitly. -/

/-- The `always_safe` character set of Python 2 `urllib.quote`:
letters, digits, `_` (95), `.` (46), `-` (45), as byte values. -/
def always_safe (b : Nat) : Bool :=
  (48 ≤ b && b ≤ 57) || (65 ≤ b && b ≤ 90) || (97 ≤ b && b ≤ 122) ||
    b == 95 || b == 46 || b == 45

/-- Uppercase hex digit, as used by `urllib.quote`'s `'%%%02X'` table. -/
def hexUpper (n : Nat) : Char :=
  if n < 10 then Char.ofNat (48 + n) else Char.ofNat (55 + n)

/-- `urllib.quote` on one byte with `safe=''`: safe bytes pass through,
every other byte becomes `%XX`. -/
def quoteByte (b : Nat) : List Char :=
  if always_safe b then [Char.ofNat b]
  else ['%', hexUpper (b / 16), hexUpper (b % 16)]

/-- Standard UTF-8 encoding of one character, as a list of byte values
(arithmetic form of the usual bit layout). -/
def utf8Bytes (c : Char) : List Nat :=
  let n := c.toNat
  if n < 128 then [n]
  else if n < 2048 then [192 + n / 64, 128 + n % 64]
  else if n < 65536 then [224 + n / 4096, 128 + n / 64 % 64, 128 + n % 64]
  else [240 + n / 262144, 128 + n / 4096 % 64, 128 + n / 64 % 64,
    128 + n % 64]

/-- `urllib.quote(e(s), safe='')`: UTF-8 encode, then percent-encode every
unsafe byte. -/
def quote (s : List Char) : List Char :=
  (s.flatMap utf8Bytes).flatMap quoteByte

/-- Python's `s.replace('%3A', ':')`: scan left to right, replacing
non-overlapping occurrences of `%3A` by `:`. -/
def replace_3A : List Char → List Char
  | [] => []
  | [c] => [c]
  | [c, d] => [c, d]
  | c :: d :: e :: rest =>
    if c = '%' ∧ d = '3' ∧ e = 'A' then ':' :: replace_3A rest
    else c :: replace_3A (d :: e :: rest)

def space_to_underscore (c : Char) : Char := if c = ' ' then '_' else c

def percent_to_dot (c : Char) : Char := if c = '%' then '.' else c

/-- `section_name_to_anchor` (lines 53-62), step for step in the source's
order: spaces to underscores, percent-encode with nothing safe, un-escape
`%3A` back to `:`, then replace every remaining `%` with `.`. -/
def section_name_to_anchor (s : List Char) : List Char :=
  ((replace_3A (quote (s.map space_to_underscore))).map percent_to_dot)

set_option maxRecDepth 8000 in
theorem safe_byte_ne_percent :
    ∀ b : Nat, b < 256 → always_safe b = true → Char.ofNat b ≠ '%' := by
  decide

set_option maxRecDepth 8000 in
theorem hexUpper_pair_eq_3A_iff :
    ∀ b : Nat, b < 256 →
      ((hexUpper (b / 16) = '3' ∧ hexUpper (b % 16) = 'A') ↔ b = 58) := by
  decide

set_option maxRecDepth 8000 in
theorem hexUpper_ne_percent :
    ∀ b : Nat, b < 256 →
      hexUpper (b / 16) ≠ '%' ∧ hexUpper (b % 16) ≠ '%' := by
  decide

theorem utf8Bytes_lt (c : Char) : ∀ b ∈ utf8Bytes c, b < 256 := by
  have hn : c.toNat < 1114112 := by
    have h := c.valid
    unfold Char.toNat
    rcases h with h | ⟨h1, h2⟩ <;> omega
  intro b hb
  by_cases h1 : c.toNat < 128
  · simp [utf8Bytes, h1] at hb; omega
  · by_cases h2 : c.toNat < 2048
    · simp [utf8Bytes, h1, h2] at hb; rcases hb with rfl | rfl <;> omega
    · by_cases h3 : c.toNat < 65536
      · simp [utf8Bytes, h1, h2, h3] at hb
        rcases hb with rfl | rfl | rfl <;> omega
      · simp [utf8Bytes, h1, h2, h3] at hb
        rcases hb with rfl | rfl | rfl | rfl <;> omega

theorem replace_3A_cons_ne {c : Char} (h : c ≠ '%') (rest : List Char) :
    replace_3A (c :: rest) = c :: replace_3A rest := by
  match rest with
  | [] => rfl
  | [d] => rfl
  | d :: e :: rest' => simp [replace_3A, h]

theorem replace_3A_match (rest : List Char) :
    replace_3A ('%' :: '3' :: 'A' :: rest) = ':' :: replace_3A rest := by
  simp [replace_3A]

theorem replace_3A_percent_no_match {d e : Char}
    (h : ¬(d = '3' ∧ e = 'A')) (rest : List Char) :
    replace_3A ('%' :: d :: e :: rest) =
      '%' :: replace_3A (d :: e :: rest) := by
  simp only [replace_3A]
  rw [if_neg (fun hc => h hc.2)]

/-- What one byte contributes after percent-encoding and the `%3A → :`
un-escape, before the final `% → .` substitution. -/
def pre_anchor_byte (b : Nat) : List Char :=
  if always_safe b then [Char.ofNat b]
  else if b = 58 then [':']
  else ['%', hexUpper (b / 16), hexUpper (b % 16)]

/-- What one byte contributes to the final anchor. -/
def anchor_byte (b : Nat) : List Char :=
  if always_safe b then [Char.ofNat b]
  else if b = 58 then [':']
  else ['.', hexUpper (b / 16), hexUpper (b % 16)]

theorem replace_3A_flatMap_quoteByte :
    ∀ bs : List Nat, (∀ b ∈ bs, b < 256) →
      replace_3A (bs.flatMap quoteByte) = bs.flatMap pre_anchor_byte := by
  intro bs
  induction bs with
  | nil => intro _; rfl
  | cons b bs ih =>
    intro h
    have hb : b < 256 := h b (by simp)
    have hrest : ∀ x ∈ bs, x < 256 :=
      fun x hx => h x (List.mem_cons_of_mem _ hx)
    rw [List.flatMap_cons, List.flatMap_cons]
    by_cases hs : always_safe b
    · rw [show quoteByte b = [Char.ofNat b] from by simp [quoteByte, hs],
        show pre_anchor_byte b = [Char.ofNat b] from by
          simp [pre_anchor_byte, hs]]
      simp only [List.cons_append, List.nil_append]
      rw [replace_3A_cons_ne (safe_byte_ne_percent b hb hs), ih hrest]
    · by_cases h58 : b = 58
      · subst h58
        rw [show quoteByte 58 = ['%', '3', 'A'] from rfl,
          show pre_anchor_byte 58 = [':'] from rfl]
        simp only [List.cons_append, List.nil_append]
        rw [replace_3A_match, ih hrest]
      · rw [show quoteByte b = ['%', hexUpper (b / 16), hexUpper (b % 16)]
            from by simp [quoteByte, hs],
          show pre_anchor_byte b =
              ['%', hexUpper (b / 16), hexUpper (b % 16)]
            from by simp [pre_anchor_byte, hs, h58]]
        simp only [List.cons_append, List.nil_append]
        rw [replace_3A_percent_no_match
            (fun hm => h58 ((hexUpper_pair_eq_3A_iff b hb).1 hm)),
          replace_3A_cons_ne (hexUpper_ne_percent b hb).1,
          replace_3A_cons_ne (hexUpper_ne_percent b hb).2, ih hrest]

set_option maxRecDepth 8000 in
theorem map_percent_to_dot_pre_anchor_byte :
    ∀ b : Nat, b < 256 →
      (pre_anchor_byte b).map percent_to_dot = anchor_byte b := by
  decide

theorem flatMap_pre_anchor_map :
    ∀ bs : List Nat, (∀ b ∈ bs, b < 256) →
      (bs.flatMap pre_anchor_byte).map percent_to_dot =
        bs.flatMap anchor_byte := by
  intro bs
  induction bs with
  | nil => intro _; rfl
  | cons b bs ih =>
    intro h
    rw [List.flatMap_cons, List.flatMap_cons, List.map_append,
      map_percent_to_dot_pre_anchor_byte b (h b (by simp)),
      ih (fun x hx => h x (List.mem_cons_of_mem _ hx))]

/-- What one input character contributes to the final anchor. -/
def anchor_char (c : Char) : List Char :=
  (utf8Bytes (space_to_underscore c)).flatMap anchor_byte

/-- Compositional characterisation of the four-step encoder: each input
character contributes independently. -/
theorem section_name_to_anchor_eq (s : List Char) :
    section_name_to_anchor s = s.flatMap anchor_char := by
  have hbs : ∀ b ∈ (s.map space_to_underscore).flatMap utf8Bytes,
      b < 256 := by
    intro b hb
    obtain ⟨c, _, hbc⟩ := List.mem_flatMap.1 hb
    exact utf8Bytes_lt c b hbc
  unfold section_name_to_anchor quote
  rw [replace_3A_flatMap_quoteByte _ hbs, flatMap_pre_anchor_map _ hbs,
    List.flatMap_assoc, List.flatMap_map]
  rfl

set_option maxRecDepth 8000 in
theorem anchor_byte_no_percent :
    ∀ b : Nat, b < 256 → '%' ∉ anchor_byte b := by
  decide

/-- Claim C4: the encoder applies, in order: spaces to underscores,
percent-encoding of the UTF-8 bytes with nothing safe, un-escaping `%3A`
to `:`, and `%` to `.` (this order is its definition,
`section_name_to_anchor`).  In particular `"See also"` encodes to
`"See_also"`, a colon in the input survives as a literal `:` in the
output, and the final anchor contains no `%` character. -/
theorem section_name_to_anchor_spec :
    section_name_to_anchor "See also".data = "See_also".data ∧
    (∀ s : List Char, ':' ∈ s → ':' ∈ section_name_to_anchor s) ∧
    (∀ s : List Char, '%' ∉ section_name_to_anchor s) := by
  refine ⟨by decide, ?_, ?_⟩
  · intro s hs
    rw [section_name_to_anchor_eq]
    refine List.mem_flatMap.2 ⟨':', hs, ?_⟩
    decide
  · intro s hp
    rw [section_name_to_anchor_eq] at hp
    obtain ⟨c, _, hc⟩ := List.mem_flatMap.1 hp
    obtain ⟨b, hb, hcb⟩ := List.mem_flatMap.1 hc
    exact anchor_byte_no_percent b
      (utf8Bytes_lt (space_to_underscore c) b hb) hcb

theorem section_name_to_anchor_spec_witness :
    ':' ∈ ("Notes:A".data) ∧ ':' ∈ section_name_to_anchor "Notes:A".data :=
  ⟨by decide, section_name_to_anchor_spec.2.1 "Notes:A".data (by decide)⟩

/-! ## Fetch client: `query_pageids` (parse_live.py lines 64-84)

For each `(id, page)` item of the API response, the code skips the page
when `'title' not in page` (`continue`), reads
`page['revisions'][0]['*']` as the text — an access that raises when the
page has no revisions — and skips the page when that text is falsy
(empty).  The paged `queryGen()` protocol is external; we model the
flattened sequence of response items. -/

/-- One page entry of the API response: an optional `title` field and the
list of the `'*'` (content) fields of its revisions. -/
structure APIPage where
  title : Option String
  revisions : List String
deriving DecidableEq, Repr

/-- The body of the response loop for one `(id, page)` item:
`Except.ok none` = page skipped, `Except.ok (some t)` = tuple yielded,
`Except.error ()` = the `page['revisions'][0]` access raised. -/
def process_page (id : Nat) (page : APIPage) :
    Except Unit (Option (Nat × String × String)) :=
  match page.title with
  | none => Except.ok none
  | some title =>
    match page.revisions.head? with
    | none => Except.error ()
    | some text =>
      if text = "" then Except.ok none
      else Except.ok (some (id, title, text))

/-- The yielded sequence of `query_pageids` over the response items. -/
def query_pageids :
    List (Nat × APIPage) → Except Unit (List (Nat × String × String))
  | [] => Except.ok []
  | (id, page) :: rest =>
    match process_page id page with
    | Except.error e => Except.error e
    | Except.ok none => query_pageids rest
    | Except.ok (some t) =>
      match query_pageids rest with
      | Except.error e => Except.error e
      | Except.ok ts => Except.ok (t :: ts)

/-! ## The per-batch worker: `work` (parse_live.py lines 128-156)

`work` first runs the whole fetch-and-construct loop, accumulating `rows`
(one entry per page that yielded at least one snippet), and only then
performs the durable writes, one `insert` call per accumulated page.  The
extractor `self.parser.extract_snippets(wikitext, min, max)` is an
external collaborator, modelled as a function argument (the two size
bounds are fixed inside it). -/

/-- Modelled from the spec: `utils.mkid` (the repository's `utils` module
is not under `src/`): "deterministic id = a fixed-width hash of the
concatenation of the page title and the fragment text, rendered as a
primary-key value", stable across runs for the same input string. -/
def mkid (s : String) : String := toString s.hash

/-- Modelled from the spec: the localized config's site domain (config
loading is out of scope); fixed to a concrete domain. -/
def wikipedia_domain : String := "en.wikipedia.org"

def WIKIPEDIA_WIKI_URL : String := "https://" ++ wikipedia_domain ++ "/wiki/"

/-- `url = WIKIPEDIA_WIKI_URL + title.replace(' ', '_')` (line 133). -/
def page_url (title : String) : String :=
  WIKIPEDIA_WIKI_URL ++ String.mk (title.data.map space_to_underscore)

/-- The snippet rows built for one page (lines 135-143): for each
`(sec, snips)` pair from the extractor, for each snippet, the row
`(mkid (title ++ sni), sni, section_name_to_anchor sec, pageid)`. -/
def snippet_rows (extract : String → List (String × List String))
    (title : String) (pageid : Nat) (wikitext : String) :
    List (String × String × String × Nat) :=
  (extract wikitext).flatMap fun p =>
    p.2.map fun sni =>
      (mkid (title ++ sni), sni,
        String.mk (section_name_to_anchor p.1.data), pageid)

/-- One entry of `rows`: `{'article': article_row, 'snippets': snippets_rows}`. -/
structure RowGroup where
  article : Nat × String × String
  snippets : List (String × String × String × Nat)
deriving DecidableEq, Repr

/-- The `rows` list built by the loop of lines 130-147: a page contributes
a `RowGroup` iff its `snippets_rows` is non-empty. -/
def build_rows (extract : String → List (String × List String)) :
    List (Nat × String × String) → List RowGroup
  | [] => []
  | (pageid, title, wikitext) :: rest =>
    let srows := snippet_rows extract title pageid wikitext
    if srows = [] then build_rows extract rest
    else ⟨(pageid, page_url title, title), srows⟩ :: build_rows extract rest

/-- The scratch database: the `articles` and `snippets` tables, rows in
insertion order.  `articles` has primary key `pageid` (first component),
`snippets` has primary key `id` (first component). -/
structure DB where
  articles : List (Nat × String × String)
  snippets : List (String × String × String × Nat)
deriving DecidableEq, Repr

/-- `INSERT INTO articles VALUES(...)`: a duplicate primary key is an
error (the row is rejected and the statement raises). -/
def insert_article (arts : List (Nat × String × String))
    (a : Nat × String × String) :
    Except Unit (List (Nat × String × String)) :=
  if arts.any fun r => r.1 == a.1 then Except.error ()
  else Except.ok (arts ++ [a])

/-- `INSERT IGNORE INTO snippets VALUES(...)`: a duplicate primary key is
silently ignored (no row added, no error). -/
def insert_snippet_ignore (snips : List (String × String × String × Nat))
    (s : String × String × String × Nat) :
    List (String × String × String × Nat) :=
  if snips.any fun r => r.1 == s.1 then snips else snips ++ [s]

/-- The `insert` closure of lines 149-154: insert the page's article row,
then all its snippet rows with ignore-on-duplicate semantics.  If the
article insert raises, the snippet inserts do not run.
(`execute_with_retry` retries transient connection failures only; a
duplicate-key rejection is not transient and surfaces.) -/
def insert (db : DB) (r : RowGroup) : Except Unit DB :=
  match insert_article db.articles r.article with
  | Except.error e => Except.error e
  | Except.ok arts =>
    Except.ok ⟨arts, r.snippets.foldl insert_snippet_ignore db.snippets⟩

/-- The write loop of lines 155-156: one `insert` call per row group; each
call commits durably, and an exception aborts the loop with the earlier
groups' writes standing. -/
def run_inserts : DB → List RowGroup → Option Unit × DB
  | db, [] => (none, db)
  | db, r :: rs =>
    match insert db r with
    | Except.ok db' => run_inserts db' rs
    | Except.error e => (some e, db)

/-- `work` on one batch, given the already-fetched results of
`query_pageids` for its pageids: build all rows, then write them. -/
def work (extract : String → List (String × List String))
    (results : List (Nat × String × String)) (db : DB) :
    Option Unit × DB :=
  run_inserts db (build_rows extract results)

/-- The sequence of row-write statements `work` issues, in order: for each
accumulated page, its article insert followed by its snippet inserts. -/
inductive WriteOp where
  | art (r : Nat × String × String)
  | snip (r : String × String × String × Nat)
deriving DecidableEq, Repr

def insert_ops (r : RowGroup) : List WriteOp :=
  WriteOp.art r.article :: r.snippets.map WriteOp.snip

def work_ops (extract : String → List (String × List String))
    (results : List (Nat × String × String)) : List WriteOp :=
  (build_rows extract results).flatMap insert_ops

/-- The pageid a write statement refers to. -/
def op_pageid : WriteOp → Nat
  | WriteOp.art r => r.1
  | WriteOp.snip r => r.2.2.2

theorem snippet_rows_pageid (extract : String → List (String × List String))
    (title : String) (pageid : Nat) (wikitext : String) :
    ∀ r ∈ snippet_rows extract title pageid wikitext, r.2.2.2 = pageid := by
  intro r hr
  obtain ⟨p, _, hrp⟩ := List.mem_flatMap.1 hr
  obtain ⟨sni, _, rfl⟩ := List.mem_map.1 hrp
  rfl

theorem build_rows_mem (extract : String → List (String × List String)) :
    ∀ (results : List (Nat × String × String)) (g : RowGroup),
      g ∈ build_rows extract results →
      ∃ pageid title wikitext, (pageid, title, wikitext) ∈ results ∧
        snippet_rows extract title pageid wikitext ≠ [] ∧
        g = ⟨(pageid, page_url title, title),
          snippet_rows extract title pageid wikitext⟩ := by
  intro results
  induction results with
  | nil => intro g hg; cases hg
  | cons hd rest ih =>
    obtain ⟨p, t, w⟩ := hd
    intro g hg
    rw [build_rows] at hg
    by_cases hsr : snippet_rows extract t p w = []
    · rw [if_pos hsr] at hg
      obtain ⟨pageid, title, wikitext, hmem, hne, hgeq⟩ := ih g hg
      exact ⟨pageid, title, wikitext, List.mem_cons_of_mem _ hmem, hne, hgeq⟩
    · rw [if_neg hsr] at hg
      rcases List.mem_cons.1 hg with rfl | hg
      · exact ⟨p, t, w, List.mem_cons_self _ _, hsr, rfl⟩
      · obtain ⟨pageid, title, wikitext, hmem, hne, hgeq⟩ := ih g hg
        exact ⟨pageid, title, wikitext, List.mem_cons_of_mem _ hmem, hne, hgeq⟩

/-- Every write statement `work` issues refers to the pageid of some
fetched page whose extraction yielded at least one snippet. -/
theorem work_ops_origin (extract : String → List (String × List String))
    (results : List (Nat × String × String)) (o : WriteOp)
    (ho : o ∈ work_ops extract results) :
    ∃ pageid title wikitext, (pageid, title, wikitext) ∈ results ∧
      snippet_rows extract title pageid wikitext ≠ [] ∧
      op_pageid o = pageid := by
  obtain ⟨g, hg, hog⟩ := List.mem_flatMap.1 ho
  obtain ⟨pageid, title, wikitext, hmem, hne, rfl⟩ :=
    build_rows_mem extract results g hg
  refine ⟨pageid, title, wikitext, hmem, hne, ?_⟩
  rcases List.mem_cons.1 hog with rfl | hog
  · rfl
  · obtain ⟨r, hr, rfl⟩ := List.mem_map.1 hog
    exact snippet_rows_pageid extract title pageid wikitext r hr

theorem work_ops_cons (extract : String → List (String × List String))
    (p : Nat) (t w : String) (rest : List (Nat × String × String)) :
    work_ops extract ((p, t, w) :: rest) =
      (if snippet_rows extract t p w = [] then []
       else insert_ops ⟨(p, page_url t, t), snippet_rows extract t p w⟩) ++
        work_ops extract rest := by
  unfold work_ops
  rw [build_rows]
  by_cases hsr : snippet_rows extract t p w = []
  · rw [if_pos hsr, if_pos hsr, List.nil_append]
  · rw [if_neg hsr, if_neg hsr, List.flatMap_cons]

/-- Claim C5 (helper, in fully quantified form): for a fetched page whose
extraction yields at least one snippet, the write sequence of `work`
contains the page's article insert immediately followed by all of its
snippet inserts, and no other write statement of the batch refers to that
page. -/
theorem work_ops_split (extract : String → List (String × List String)) :
    ∀ (results : List (Nat × String × String)) (pageid : Nat)
      (title wikitext : String),
      (pageid, title, wikitext) ∈ results →
      (results.map fun x => x.1).Nodup →
      snippet_rows extract title pageid wikitext ≠ [] →
      ∃ pre post,
        work_ops extract results =
          pre ++ (WriteOp.art (pageid, page_url title, title) ::
            (snippet_rows extract title pageid wikitext).map WriteOp.snip)
            ++ post ∧
        (∀ o ∈ pre, op_pageid o ≠ pageid) ∧
        (∀ o ∈ post, op_pageid o ≠ pageid) := by
  intro results
  induction results with
  | nil => intro _ _ _ h; cases h
  | cons hd rest ih =>
    obtain ⟨p, t, w⟩ := hd
    intro pageid title wikitext hmem hnd hsn
    have hnd' : (rest.map fun x => x.1).Nodup :=
      (List.nodup_cons.1 hnd).2
    rcases List.mem_cons.1 hmem with heq | hmem'
    · obtain ⟨rfl, rfl, rfl⟩ : p = pageid ∧ t = title ∧ w = wikitext := by
        injection heq with h1 h2
        injection h2 with h2 h3
        exact ⟨h1.symm, h2.symm, h3.symm⟩
      refine ⟨[], work_ops extract rest, ?_, by simp, ?_⟩
      · rw [work_ops_cons, if_neg hsn, List.nil_append]
        rfl
      · intro o ho
        obtain ⟨p', t', w', hmem', _, hop⟩ :=
          work_ops_origin extract rest o ho
        have : p' ∈ rest.map fun x => x.1 :=
          List.mem_map.2 ⟨(p', t', w'), hmem', rfl⟩
        intro hco
        rw [hco] at hop
        exact (List.nodup_cons.1 hnd).1 (hop ▸ this)
    · have hpne : p ≠ pageid := by
        intro hpe
        subst hpe
        exact (List.nodup_cons.1 hnd).1
          (List.mem_map.2 ⟨(p, title, wikitext), hmem', rfl⟩)
      obtain ⟨pre, post, hsplit, hpre, hpost⟩ :=
        ih pageid title wikitext hmem' hnd' hsn
      refine ⟨(if snippet_rows extract t p w = [] then []
          else insert_ops ⟨(p, page_url t, t), snippet_rows extract t p w⟩)
            ++ pre, post, ?_, ?_, hpost⟩
      · rw [work_ops_cons, hsplit]
        simp [List.append_assoc]
      · intro o ho
        rcases List.mem_append.1 ho with hohd | hopre
        · by_cases hsr : snippet_rows extract t p w = []
          · rw [if_pos hsr] at hohd
            cases hohd
          · rw [if_neg hsr] at hohd
            rcases List.mem_cons.1 hohd with rfl | hosnip
            · exact hpne
            · obtain ⟨r, hr, rfl⟩ := List.mem_map.1 hosnip
              have := snippet_rows_pageid extract t p w r hr
              simpa [op_pageid, this] using hpne
        · exact hpre o hopre

/-- Claim C5: for every fetched page of a batch whose extraction yields at
least one fragment, `work` issues exactly one article insert
`(pageid, url, title)` and exactly one snippet insert per extracted
fragment, each snippet row carrying the page's pageid as foreign key; the
article insert comes immediately before that page's snippet inserts
(inside the same per-page `insert` call), and no other write of the batch
refers to that pageid. -/
theorem work_one_article_one_row_per_fragment
    (extract : String → List (String × List String))
    (results : List (Nat × String × String)) (pageid : Nat)
    (title wikitext : String)
    (hmem : (pageid, title, wikitext) ∈ results)
    (hnd : (results.map fun x => x.1).Nodup)
    (hsn : snippet_rows extract title pageid wikitext ≠ []) :
    (∀ r ∈ snippet_rows extract title pageid wikitext, r.2.2.2 = pageid) ∧
    ∃ pre post,
      work_ops extract results =
        pre ++ (WriteOp.art (pageid, page_url title, title) ::
          (snippet_rows extract title pageid wikitext).map WriteOp.snip)
          ++ post ∧
      (∀ o ∈ pre, op_pageid o ≠ pageid) ∧
      (∀ o ∈ post, op_pageid o ≠ pageid) :=
  ⟨snippet_rows_pageid extract title pageid wikitext,
    work_ops_split extract results pageid title wikitext hmem hnd hsn⟩

theorem work_one_article_one_row_per_fragment_witness :
    snippet_rows (fun _ => [("Sec", ["x"])]) "T" 1 "W" ≠ [] ∧
    (∀ r ∈ snippet_rows (fun _ => [("Sec", ["x"])]) "T" 1 "W",
      r.2.2.2 = 1) := by
  refine ⟨by simp [snippet_rows], ?_⟩
  exact (work_one_article_one_row_per_fragment
    (fun _ => [("Sec", ["x"])]) [(1, "T", "W")] 1 "T" "W"
    (by simp) (by simp) (by simp [snippet_rows])).1

/-- Claim C6: for a fetched page whose extraction yields zero fragments,
no article row and no snippet row is written for that page — no write
statement of the batch refers to its pageid — and this is not an error: a
batch holding only such a page completes with no exception and leaves the
database unchanged. -/
theorem work_skips_pages_without_fragments
    (extract : String → List (String × List String))
    (results : List (Nat × String × String)) (pageid : Nat)
    (title wikitext : String)
    (hmem : (pageid, title, wikitext) ∈ results)
    (hnd : (results.map fun x => x.1).Nodup)
    (hempty : snippet_rows extract title pageid wikitext = []) :
    (∀ o ∈ work_ops extract results, op_pageid o ≠ pageid) ∧
    (∀ db : DB, work extract [(pageid, title, wikitext)] db = (none, db)) := by
  constructor
  · intro o ho hop
    obtain ⟨p', t', w', hmem', hne', hop'⟩ :=
      work_ops_origin extract results o ho
    have heq : (p', t', w') = (pageid, title, wikitext) :=
      List.inj_on_of_nodup_map hnd hmem' hmem (by rw [← hop', hop])
    obtain ⟨rfl, rfl, rfl⟩ : p' = pageid ∧ t' = title ∧ w' = wikitext := by
      injection heq with h1 h2
      injection h2 with h2 h3
      exact ⟨h1, h2, h3⟩
    exact hne' hempty
  · intro db
    unfold work
    rw [build_rows, if_pos hempty]
    rfl

theorem work_skips_pages_without_fragments_witness :
    snippet_rows (fun _ => []) "T" 2 "W" = [] ∧
    work (fun _ => []) [(2, "T", "W")] ⟨[], []⟩ = (none, ⟨[], []⟩) := by
  refine ⟨by simp [snippet_rows], ?_⟩
  exact (work_skips_pages_without_fragments (fun _ => [])
    [(2, "T", "W")] 2 "T" "W" (by simp) (by simp)
    (by simp [snippet_rows])).2 ⟨[], []⟩

/-- Re-inserting a snippet row is a no-op once a row with the same id is
present: `INSERT IGNORE` is idempotent. -/
theorem insert_snippet_ignore_idem
    (snips : List (String × String × String × Nat))
    (s : String × String × String × Nat) :
    insert_snippet_ignore (insert_snippet_ignore snips s) s =
      insert_snippet_ignore snips s := by
  by_cases h : (snips.any fun r => r.1 == s.1) = true
  · simp [insert_snippet_ignore, h]
  · simp [insert_snippet_ignore, h, List.any_append]

/-- Claim C7: in the durable write step, inserting a snippet row whose id
already exists is silently ignored (no change, and — since
`insert_snippet_ignore` cannot fail — it never fails the batch: a row
group whose article is fresh inserts fine whatever snippet duplicates it
holds), whereas inserting an article row whose pageid already exists
raises: `insert` returns an error and the write loop reports the batch as
failed, which is the exception the circuit breaker counts.   Snippet ids
are `mkid (title ++ text)`, a fixed deterministic function, so the same
(title, text) pair always maps to the same id. -/
theorem duplicate_insert_semantics (db : DB) (r : RowGroup)
    (rs : List RowGroup) (s : String × String × String × Nat)
    (snips : List (String × String × String × Nat))
    (hdupS : (snips.any fun x => x.1 == s.1) = true)
    (hdupA : (db.articles.any fun x => x.1 == r.article.1) = true) :
    insert_snippet_ignore snips s = snips ∧
    (∀ (db' : DB) (r' : RowGroup),
      (db'.articles.any fun x => x.1 == r'.article.1) = false →
      insert db' r' = Except.ok ⟨db'.articles ++ [r'.article],
        r'.snippets.foldl insert_snippet_ignore db'.snippets⟩) ∧
    insert db r = Except.error () ∧
    run_inserts db (r :: rs) = (some (), db) := by
  have hins : insert db r = Except.error () := by
    unfold insert insert_article
    rw [if_pos hdupA]
  refine ⟨?_, ?_, hins, ?_⟩
  · unfold insert_snippet_ignore
    rw [if_pos hdupS]
  · intro db' r' hfresh
    unfold insert insert_article
    rw [if_neg (by simp [hfresh])]
  · rw [run_inserts, hins]

theorem duplicate_insert_semantics_witness :
    insert_snippet_ignore [("i", "x", "a", 1)] ("i", "y", "b", 2) =
      [("i", "x", "a", 1)] ∧
    insert ⟨[(1, "u", "t")], []⟩ ⟨(1, "u2", "t2"), []⟩ =
      Except.error () ∧
    run_inserts ⟨[(1, "u", "t")], []⟩ [⟨(1, "u2", "t2"), []⟩] =
      (some (), ⟨[(1, "u", "t")], []⟩) := by
  have h := duplicate_insert_semantics ⟨[(1, "u", "t")], []⟩
    ⟨(1, "u2", "t2"), []⟩ [] ("i", "y", "b", 2) [("i", "x", "a", 1)]
    (by decide) (by decide)
  exact ⟨h.1, h.2.2.1, h.2.2.2⟩

/-! ## Construction-before-write: `work` with a fallible extractor

In the source, `work` consumes the whole fetch generator and builds the
complete `rows` list for the batch before the first `INSERT` runs; an
exception raised by the extractor (or the fetch) therefore aborts the
batch before any durable write.  We re-embed the construction loop with
an extractor that may raise, as an `Except`-valued function. -/

def build_rows_e
    (extract : String → Except Unit (List (String × List String))) :
    List (Nat × String × String) → Except Unit (List RowGroup)
  | [] => Except.ok []
  | (pageid, title, wikitext) :: rest =>
    match extract wikitext with
    | Except.error e => Except.error e
    | Except.ok snips =>
      let srows := snips.flatMap fun p =>
        p.2.map fun sni =>
          (mkid (title ++ sni), sni,
            String.mk (section_name_to_anchor p.1.data), pageid)
      match build_rows_e extract rest with
      | Except.error e => Except.error e
      | Except.ok rows =>
        Except.ok (if srows = [] then rows
          else ⟨(pageid, page_url title, title), srows⟩ :: rows)

def work_e (extract : String → Except Unit (List (String × List String)))
    (results : List (Nat × String × String)) (db : DB) :
    Option Unit × DB :=
  match build_rows_e extract results with
  | Except.error _ => (some (), db)
  | Except.ok rows => run_inserts db rows

/-- Claim C9: within one batch all row construction completes before any
durable write is issued: the write loop runs only on the fully built
`rows` list, so if an exception occurs partway through article/fragment
construction the batch fails with the database untouched — pages of the
batch already fully processed before the exception are lost along with
the one that failed. -/
theorem work_no_writes_on_construction_failure
    (extract : String → Except Unit (List (String × List String)))
    (results : List (Nat × String × String)) (db : DB) :
    (build_rows_e extract results = Except.error () →
      work_e extract results db = (some (), db)) ∧
    (∀ rows, build_rows_e extract results = Except.ok rows →
      work_e extract results db = run_inserts db rows) := by
  constructor
  · intro h
    unfold work_e
    rw [h]
  · intro rows h
    unfold work_e
    rw [h]

theorem work_no_writes_on_construction_failure_witness :
    build_rows_e (fun _ => Except.error ())
      [(1, "T", "W"), (2, "U", "V")] = Except.error () ∧
    work_e (fun _ => Except.error ()) [(1, "T", "W"), (2, "U", "V")]
      ⟨[(9, "u", "t")], []⟩ = (some (), ⟨[(9, "u", "t")], []⟩) :=
  ⟨rfl, (work_no_writes_on_construction_failure (fun _ => Except.error ())
    [(1, "T", "W"), (2, "U", "V")] ⟨[(9, "u", "t")], []⟩).1 rfl⟩

/-- Claim C8: a response entry with no title is skipped without error; an
entry whose (retrievable) text is empty is skipped without error; and
every tuple `query_pageids` yields comes from an entry with a title and
carries that entry's non-empty text. -/
theorem query_pageids_omits_bad_pages :
    (∀ (id : Nat) (page : APIPage), page.title = none →
      process_page id page = Except.ok none) ∧
    (∀ (id : Nat) (page : APIPage) (t : String), page.title = some t →
      page.revisions.head? = some "" → process_page id page = Except.ok none) ∧
    (∀ (pages : List (Nat × APIPage)) (res : List (Nat × String × String)),
      query_pageids pages = Except.ok res →
      ∀ tup ∈ res, ∃ page : APIPage, (tup.1, page) ∈ pages ∧
        page.title = some tup.2.1 ∧ page.revisions.head? = some tup.2.2 ∧
        tup.2.2 ≠ "") := by
  refine ⟨?_, ?_, ?_⟩
  · intro id page h
    unfold process_page
    rw [h]
  · intro id page t h1 h2
    unfold process_page
    rw [h1, h2]
    simp
  · intro pages
    induction pages with
    | nil =>
      intro res h tup htup
      simp [query_pageids] at h
      subst h
      cases htup
    | cons pr rest ih =>
      obtain ⟨id, page⟩ := pr
      intro res h tup htup
      rw [query_pageids] at h
      cases hp : process_page id page with
      | error e => rw [hp] at h; cases h
      | ok o =>
        cases o with
        | none =>
          rw [hp] at h
          obtain ⟨pg, hmem, h1, h2, h3⟩ := ih res h tup htup
          exact ⟨pg, List.mem_cons_of_mem _ hmem, h1, h2, h3⟩
        | some t =>
          rw [hp] at h
          cases hr : query_pageids rest with
          | error e => rw [hr] at h; cases h
          | ok ts =>
            rw [hr] at h
            injection h with h
            subst h
            rcases List.mem_cons.1 htup with rfl | htup'
            · unfold process_page at hp
              cases hti : page.title with
              | none => rw [hti] at hp; simp at hp
              | some title =>
                rw [hti] at hp
                cases hhd : page.revisions.head? with
                | none => rw [hhd] at hp; simp at hp
                | some text =>
                  rw [hhd] at hp
                  by_cases htext : text = ""
                  · simp [htext] at hp
                  · simp only [if_neg htext, Except.ok.injEq,
                      Option.some.injEq] at hp
                    subst hp
                    exact ⟨page, List.mem_cons_self _ _, hti, hhd, htext⟩
            · obtain ⟨pg, hmem, h1, h2, h3⟩ := ih ts hr tup htup'
              exact ⟨pg, List.mem_cons_of_mem _ hmem, h1, h2, h3⟩

theorem query_pageids_omits_bad_pages_witness :
    process_page 7 ⟨none, []⟩ = Except.ok none ∧
    process_page 8 ⟨some "T", [""]⟩ = Except.ok none ∧
    (∃ page : APIPage,
      ((1 : Nat), page) ∈ [((1 : Nat), (⟨some "T", ["x"]⟩ : APIPage))] ∧
      page.title = some "T" ∧ page.revisions.head? = some "x" ∧
      ("x" : String) ≠ "") := by
  refine ⟨query_pageids_omits_bad_pages.1 7 ⟨none, []⟩ rfl,
    query_pageids_omits_bad_pages.2.1 8 ⟨some "T", [""]⟩ "T" rfl rfl, ?_⟩
  exact query_pageids_omits_bad_pages.2.2
    [(1, ⟨some "T", ["x"]⟩)] [(1, "T", "x")] rfl (1, "T", "x") (by simp)

end ParseLive
